import Mathlib

set_option maxRecDepth 200000

/-!
Verification development for the GPX tree module (`fetch_tree.js`) of the
aionWebpage repository.

Strings are modelled as `List Char`.  JavaScript `Date` values are modelled as
`Option ℤ` (milliseconds since the Unix epoch; `none` is an Invalid Date, whose
time value is NaN).  JavaScript numbers produced by date arithmetic are
modelled as `Option ℚ` (`none` = NaN), and the floating-point distance
computation is modelled over the real numbers (`Option ℝ`, `none` = NaN from an
unparseable coordinate).  `Array.prototype.sort`, which ECMAScript requires to
be a stable sort, is modelled by `List.insertionSort` (any stable sort with a
consistent comparator produces the same output).
-/

abbrev Str := List Char

/-- JS `a - b <= 0` test on two date values used by the ascending file sort
comparator `(a, b) => a.date - b.date`; a NaN comparator result is treated as
`+0` by the ECMAScript sort algorithm, hence `true` here. -/
def jsLeOpt : Option ℤ → Option ℤ → Bool
  | some a, some b => decide (a ≤ b)
  | _, _ => true

/-- JS strict `date > mostRecentDate` comparison of two date values; any
comparison involving an Invalid Date (NaN) is `false`. -/
def jsGtOpt : Option ℤ → Option ℤ → Bool
  | some a, some b => decide (b < a)
  | _, _ => false

/-! ### Numeric text parsing (JS `parseFloat`) -/

def isDigitCh (c : Char) : Bool := '0' ≤ c && c ≤ '9'

def digitVal (c : Char) : ℕ := c.toNat - '0'.toNat

/-- Value of a digit string read as a natural number. -/
def digitsVal (l : Str) : ℕ := l.foldl (fun acc c => 10 * acc + digitVal c) 0

/-- JS whitespace characters skipped by `parseFloat`. -/
def isWsCh (c : Char) : Bool := c = ' ' || c = '\t' || c = '\n' || c = '\r'

/-- Model of JS `parseFloat`: skip leading whitespace, optional sign, decimal
digits with optional fraction, optional exponent; trailing garbage is ignored;
`none` models a NaN result.  (Non-finite inputs such as `Infinity` are outside
the modelled range and also map to `none`.)  The value
`sign · (intDigits.fracDigits) · 10^exp` is assembled with integer arithmetic
and a single `Rat.divInt` so that it evaluates inside the kernel. -/
def parseFloatQ (s : Str) : Option ℚ :=
  let s1 := s.dropWhile isWsCh
  let sign : ℤ := if s1.head? = some '-' then -1 else 1
  let s2 := if s1.head? = some '-' || s1.head? = some '+' then s1.tail else s1
  let intPart := s2.takeWhile isDigitCh
  let s3 := s2.drop intPart.length
  let fracPart := if s3.head? = some '.' then s3.tail.takeWhile isDigitCh else []
  let s4 := if s3.head? = some '.' then (s3.tail.drop fracPart.length) else s3
  if intPart = [] && fracPart = [] then none
  else
    let mantNum : ℤ := sign * ((digitsVal intPart : ℤ) * 10 ^ fracPart.length +
      (digitsVal fracPart : ℤ))
    let mantDen : ℤ := 10 ^ fracPart.length
    let exp : ℤ :=
      if s4.head? = some 'e' || s4.head? = some 'E' then
        let e1 := s4.tail
        let esign : ℤ := if e1.head? = some '-' then -1 else 1
        let e2 := if e1.head? = some '-' || e1.head? = some '+' then e1.tail else e1
        let eDigits := e2.takeWhile isDigitCh
        if eDigits = [] then 0 else esign * (digitsVal eDigits : ℤ)
      else 0
    some (Rat.divInt (mantNum * 10 ^ exp.toNat) (mantDen * 10 ^ (-exp).toNat))

/-! ### ISO-8601 date-time parsing (JS `new Date(string)`) -/

def isLeapYear (y : ℤ) : Bool :=
  (y % 4 = 0 && y % 100 ≠ 0) || y % 400 = 0

def daysInMonth (y m : ℤ) : ℤ :=
  if m = 2 then (if isLeapYear y then 29 else 28)
  else if m = 4 || m = 6 || m = 9 || m = 11 then 30
  else 31

/-- Days between a proleptic-Gregorian civil date and 1970-01-01 (the standard
era-based conversion used to define the ECMAScript time value). -/
def daysFromCivil (y m d : ℤ) : ℤ :=
  let y2 := if m ≤ 2 then y - 1 else y
  let era := Int.fdiv y2 400
  let yoe := y2 - era * 400
  let mp := Int.fmod (m + 9) 12
  let doy := Int.fdiv (153 * mp + 2) 5 + d - 1
  let doe := yoe * 365 + Int.fdiv yoe 4 - Int.fdiv yoe 100 + doy
  era * 146097 + doe - 719468

/-- Read exactly `n` leading decimal digits; returns their value and the rest. -/
def takeDigits (n : ℕ) (s : Str) : Option (ℕ × Str) :=
  let ds := s.take n
  if ds.length = n && ds.all isDigitCh then some (digitsVal ds, s.drop n) else none

/-- Parse the trailing timezone designator: nothing (treated as UTC here — the
tracked GPX timestamps all carry an explicit designator), `Z`, or `±hh:mm`.
Returns the offset in minutes to subtract. -/
def parseTzOffset (s : Str) : Option ℤ :=
  if s = [] then some 0
  else if s = ['Z'] then some 0
  else
    match s with
    | c :: rest =>
      if c = '+' || c = '-' then
        match takeDigits 2 rest with
        | some (hh, r1) =>
          match r1 with
          | ':' :: r2 =>
            match takeDigits 2 r2 with
            | some (mm, r3) =>
              if r3 = [] && hh ≤ 23 && mm ≤ 59 then
                some ((if c = '-' then -1 else 1) * ((hh : ℤ) * 60 + mm))
              else none
            | none => none
          | _ => none
        | none => none
      else none
    | [] => none

/-- Parse the time-of-day part `hh:mm[:ss[.fff]]` plus timezone; returns
milliseconds into the day minus the timezone offset. -/
def parseTimePart (s : Str) : Option ℤ :=
  match takeDigits 2 s with
  | some (hh, r1) =>
    match r1 with
    | ':' :: r2 =>
      match takeDigits 2 r2 with
      | some (mi, r3) =>
        let secPart : Option (ℕ × ℕ × Str) :=
          match r3 with
          | ':' :: r4 =>
            match takeDigits 2 r4 with
            | some (ss, r5) =>
              match r5 with
              | '.' :: r6 =>
                let fd := r6.takeWhile isDigitCh
                if fd = [] then none
                else some (ss, digitsVal ((fd.take 3) ++ List.replicate (3 - fd.length) '0'),
                  r6.drop fd.length)
              | _ => some (ss, 0, r5)
            | none => none
          | _ => some (0, 0, r3)
        match secPart with
        | some (ss, ms, rest) =>
          match parseTzOffset rest with
          | some off =>
            if hh ≤ 23 && mi ≤ 59 && ss ≤ 59 then
              some ((hh : ℤ) * 3600000 + (mi : ℤ) * 60000 + (ss : ℤ) * 1000 + (ms : ℤ)
                - off * 60000)
            else none
          | none => none
        | none => none
      | none => none
    | _ => none
  | none => none

/-- Model of JS `new Date(string)` restricted to the ISO-8601 date-time format
`YYYY-MM-DD[Thh:mm[:ss[.fff]]][Z|±hh:mm]`; `none` models an Invalid Date (any
string outside the format, e.g. an arbitrary word, parses to NaN). -/
def parseIsoDate (s : Str) : Option ℤ :=
  match takeDigits 4 s with
  | some (y, r1) =>
    match r1 with
    | '-' :: r2 =>
      match takeDigits 2 r2 with
      | some (m, r3) =>
        match r3 with
        | '-' :: r4 =>
          match takeDigits 2 r4 with
          | some (d, r5) =>
            if 1 ≤ m && m ≤ 12 && 1 ≤ d && (d : ℤ) ≤ daysInMonth y m then
              let base := daysFromCivil y m d * 86400000
              match r5 with
              | [] => some base
              | 'T' :: r6 =>
                match parseTimePart r6 with
                | some ms => some (base + ms)
                | none => none
              | _ => none
            else none
          | none => none
        | _ => none
      | none => none
    | _ => none
  | none => none

/-! ### Regex scan models

`parseGpxInfo` extracts timestamps with the global regex
`<time>([^<]+)<\/time>` and coordinates with
`<trkpt lat="([^"]+)" lon="([^"]+)"`; `getGpxFirstDate` takes the first
`<time>` match.  The models below scan left to right: at each position they
attempt a match (each capture is the maximal nonempty run admitted by its
character class, which is the unique candidate the backtracking engine can
accept), emit the captures and continue after the match, otherwise advance one
character.  The fuel argument is the length of the remaining text, which
bounds the number of scan steps. -/

/-- Attempt to match `<time>([^<]+)</time>` at the head of `l`; on success
return the capture and the number of characters consumed by the whole match. -/
def timeTokenAt (l : Str) : Option (Str × ℕ) :=
  if l.take 6 = ("<time>".toList) then
    let body := l.drop 6
    let cap := body.takeWhile (fun c => c ≠ '<')
    if cap ≠ [] && (body.drop cap.length).take 7 = ("</time>".toList) then
      some (cap, 6 + cap.length + 7)
    else none
  else none

def scanTimesAux : ℕ → Str → List Str
  | 0, _ => []
  | _, [] => []
  | fuel + 1, c :: rest =>
    match timeTokenAt (c :: rest) with
    | some (cap, k) => cap :: scanTimesAux fuel ((c :: rest).drop k)
    | none => scanTimesAux fuel rest

/-- All captures of the global regex `<time>([^<]+)<\/time>` in document
order. -/
def extractTimeCaps (text : Str) : List Str :=
  scanTimesAux text.length text

/-- Attempt to match `<trkpt lat="([^"]+)" lon="([^"]+)"` at the head of `l`;
on success return both captures and the number of characters consumed. -/
def trkptTokenAt (l : Str) : Option ((Str × Str) × ℕ) :=
  if l.take 12 = ("<trkpt lat=\"".toList) then
    let b1 := l.drop 12
    let cap1 := b1.takeWhile (fun c => c ≠ '"')
    let b2 := b1.drop cap1.length
    if cap1 ≠ [] && b2.take 7 = ("\" lon=\"".toList) then
      let b3 := b2.drop 7
      let cap2 := b3.takeWhile (fun c => c ≠ '"')
      if cap2 ≠ [] && (b3.drop cap2.length).take 1 = ['"'] then
        some ((cap1, cap2), 12 + cap1.length + 7 + cap2.length + 1)
      else none
    else none
  else none

def scanTrkptsAux : ℕ → Str → List (Str × Str)
  | 0, _ => []
  | _, [] => []
  | fuel + 1, c :: rest =>
    match trkptTokenAt (c :: rest) with
    | some (caps, k) => caps :: scanTrkptsAux fuel ((c :: rest).drop k)
    | none => scanTrkptsAux fuel rest

/-- All capture pairs of the global regex `<trkpt lat="([^"]+)" lon="([^"]+)"`
in document order. -/
def extractTrkptCaps (text : Str) : List (Str × Str) :=
  scanTrkptsAux text.length text

/-! ### The track info parser (`parseGpxInfo`) -/

/-- The `timeMatches` array of `parseGpxInfo`: each `<time>` capture passed to
the `Date` constructor. -/
def gpxTimes (text : Str) : List (Option ℤ) :=
  (extractTimeCaps text).map parseIsoDate

/-- The `coordMatches` array of `parseGpxInfo` with both attribute captures
passed through `parseFloat`. -/
def gpxCoords (text : Str) : List (Option ℚ × Option ℚ) :=
  (extractTrkptCaps text).map (fun p => (parseFloatQ p.1, parseFloatQ p.2))

/-- JS `(lastDate - firstDate) / 1000` on two date values; NaN (`none`)
whenever either date is invalid. -/
def jsDateDiffSec : Option ℤ → Option ℤ → Option ℚ
  | some a, some b => some (Rat.divInt (a - b) 1000)
  | _, _ => none

/-- Model of JS `Math.atan2` on real arguments (signed-zero distinctions are
outside the model). -/
noncomputable def jsAtan2 (y x : ℝ) : ℝ :=
  if 0 < x then Real.arctan (y / x)
  else if x < 0 then
    (if 0 ≤ y then Real.arctan (y / x) + Real.pi else Real.arctan (y / x) - Real.pi)
  else
    (if 0 < y then Real.pi / 2 else if y < 0 then -(Real.pi / 2) else 0)

/-- The inner `haversine` helper of `parseGpxInfo`, transcribed from the
source: Earth radius 6371000 m, degree→radian conversion, and
`2 * atan2(sqrt a, sqrt (1 - a))`. -/
noncomputable def haversineJs (lat1 lon1 lat2 lon2 : ℝ) : ℝ :=
  let R : ℝ := 6371000
  let toRad : ℝ → ℝ := fun x => x * Real.pi / 180
  let dLat := toRad (lat2 - lat1)
  let dLon := toRad (lon2 - lon1)
  let a := Real.sin (dLat / 2) ^ 2 +
    Real.cos (toRad lat1) * Real.cos (toRad lat2) * Real.sin (dLon / 2) ^ 2
  let c := 2 * jsAtan2 (Real.sqrt a) (Real.sqrt (1 - a))
  R * c

/-- `haversine` applied to the four `parseFloat` results of a consecutive pair
of track points; NaN (`none`) if any coordinate failed to parse. -/
noncomputable def haversineOpt : (Option ℚ × Option ℚ) → (Option ℚ × Option ℚ) → Option ℝ
  | (some lat1, some lon1), (some lat2, some lon2) =>
    some (haversineJs (lat1 : ℝ) (lon1 : ℝ) (lat2 : ℝ) (lon2 : ℝ))
  | _, _ => none

def jsAddR : Option ℝ → Option ℝ → Option ℝ
  | some a, some b => some (a + b)
  | _, _ => none

/-- The accumulation loop `for (let i = 1; i < coordMatches.length; i++)
distanceMeters += haversine(...)`, folded over the list of consecutive pairs
in document order. -/
noncomputable def distanceLoop (coords : List (Option ℚ × Option ℚ)) : Option ℝ :=
  (coords.zip coords.tail).foldl (fun acc pq => jsAddR acc (haversineOpt pq.1 pq.2)) (some 0)

structure TrackInfo where
  durationSeconds : Option ℚ
  distanceMeters : Option ℝ

/-- Model of `parseGpxInfo`: extract the `<time>` captures, return zeros when
fewer than two; duration is last-minus-first in seconds; extract the `<trkpt>`
coordinate captures, distance zero when fewer than two, otherwise the summed
pairwise haversine distance. -/
noncomputable def parseGpxInfo (text : Str) : TrackInfo :=
  let timeMatches := gpxTimes text
  if timeMatches.length < 2 then { durationSeconds := some 0, distanceMeters := some 0 }
  else
    let durationSeconds :=
      jsDateDiffSec (timeMatches.getD (timeMatches.length - 1) none) (timeMatches.getD 0 none)
    let coordMatches := gpxCoords text
    if coordMatches.length < 2 then { durationSeconds, distanceMeters := some 0 }
    else { durationSeconds, distanceMeters := distanceLoop coordMatches }

/-! ### Remote environment and `getGpxFirstDate`

Remote file contents are modelled by an environment `env : Str → Option Str`
mapping a repository path to the text served for it; `none` models any fetch
failure (network error or a thrown exception), which `getGpxFirstDate`
catches. -/

/-- Model of `getGpxFirstDate`: on fetch failure or when no `<time>` element
matches, the fallback `new Date(0)` (i.e. `some 0`); when the first `<time>`
capture exists it is passed to the `Date` constructor, whose result may be an
Invalid Date (`none`). -/
def getGpxFirstDate (env : Str → Option Str) (path : Str) : Option ℤ :=
  match env path with
  | none => some 0
  | some text =>
    match (extractTimeCaps text).head? with
    | some cap => parseIsoDate cap
    | none => some 0

/-! ### The tree data model and builder -/

/-- A folder node `\x7b name, files, subfolders \x7d`.  The `subfolders`
object-literal is modelled as an association list in property
creation/assignment order (the object's storage table).  Note that this is
not always the order `Object.entries`/`Object.values` iterate: ECMAScript
hoists array-index keys (canonical integer strings such as "2024") ahead of
the other keys, in ascending numeric order; `jsEntriesOrder` below models
that iteration order where a claim depends on it. -/
inductive TreeNode where
  | mk (name : Str) (files : List Str) (subfolders : List (Str × TreeNode))

def TreeNode.name : TreeNode → Str
  | .mk n _ _ => n

def TreeNode.files : TreeNode → List Str
  | .mk _ fs _ => fs

def TreeNode.subfolders : TreeNode → List (Str × TreeNode)
  | .mk _ _ subs => subs

/-- `node.subfolders[folderName]` read access. -/
def lookupSub (subs : List (Str × TreeNode)) (key : Str) : Option TreeNode :=
  match subs with
  | [] => none
  | (k, v) :: tl => if k = key then some v else lookupSub tl key

/-- `node.subfolders[folderName] = child` write access: overwrites the
existing property in place, or appends a new property (JS insertion order). -/
def setSub (subs : List (Str × TreeNode)) (key : Str) (child : TreeNode) :
    List (Str × TreeNode) :=
  match subs with
  | [] => [(key, child)]
  | (k, v) :: tl => if k = key then (k, child) :: tl else (k, v) :: setSub tl key child

/-- Model of `insertPath(node, parts, fullPath)`: a single segment is a file of
this folder; otherwise descend into (creating if missing) the subfolder named
by the head segment.  (`parts` is never empty at a call site, since
`String.split` always yields at least one segment.) -/
def insertPath (node : TreeNode) (parts : List Str) (fullPath : Str) : TreeNode :=
  match parts, node with
  | [], n => n
  | [_], .mk name files subs => .mk name (files ++ [fullPath]) subs
  | folder :: rest, .mk name files subs =>
    let child := match lookupSub subs folder with
      | some c => c
      | none => .mk folder [] []
    .mk name files (setSub subs folder (insertPath child rest fullPath))

/-- The path filter of `fetchGpxTree`:
`item.path.startsWith(GPX_DIRECTORY + '/') && item.path.endsWith('.gpx')`. -/
def isGpxUnder (rootName : Str) (path : Str) : Bool :=
  (rootName ++ ['/']).isPrefixOf path && (".gpx".toList).isSuffixOf path

/-- The `data.tree.forEach` loop of `fetchGpxTree`: starting from the root
node named `rootName`, insert every matching path split on `/` after
stripping `rootName + "/"`. -/
def buildRoot (rootName : Str) (paths : List Str) : TreeNode :=
  paths.foldl
    (fun acc p =>
      if isGpxUnder rootName p then
        insertPath acc ((p.drop (rootName.length + 1)).splitOn '/') p
      else acc)
    (.mk rootName [] [])

/-- Result of `fetchGpxTree`: either the bare empty object literal (the
`return \x7b\x7d` taken when the fetch fails or the response has no `tree`
field) or a built tree node. -/
inductive FetchTreeResult where
  | emptyObj
  | tree (t : TreeNode)

/-- Model of `fetchGpxTree`, as a function of the fetched listing: `none`
models a fetch/JSON failure or a response without a `tree` array, and yields
the bare `\x7b\x7d`; otherwise the nested tree is built from the listed
paths. -/
def fetchGpxTree (rootName : Str) (listing : Option (List Str)) : FetchTreeResult :=
  match listing with
  | none => .emptyObj
  | some paths => .tree (buildRoot rootName paths)

/-! ### Tree traversals: most recent track and date sort -/

/-- The file loop of `findMostRecentTrack`: fold the running
`(mostRecent, mostRecentDate)` state over a list of files with the strict
`date > mostRecentDate` update. -/
def fmrtFold (env : Str → Option Str) (files : List Str)
    (acc : Option Str × Option ℤ) : Option Str × Option ℤ :=
  files.foldl
    (fun acc f =>
      let d := getGpxFirstDate env f
      if jsGtOpt d acc.2 then (some f, d) else acc)
    acc

mutual

/-- Model of `findMostRecentTrack`: state starts at
`(null, new Date(0))`, every file of the node is compared with strict `>`,
then each subfolder's recursive winner is re-dated and compared with
strict `>`. -/
def findMostRecentTrack (env : Str → Option Str) : TreeNode → Option Str
  | .mk _ files subs => (fmrtSubs env subs (fmrtFold env files (none, some 0))).1

/-- The subfolder loop of `findMostRecentTrack`. -/
def fmrtSubs (env : Str → Option Str) :
    List (Str × TreeNode) → (Option Str × Option ℤ) → (Option Str × Option ℤ)
  | [], acc => acc
  | (_, v) :: tl, acc =>
    match findMostRecentTrack env v with
    | some r =>
      let d := getGpxFirstDate env r
      fmrtSubs env tl (if jsGtOpt d acc.2 then (some r, d) else acc)
    | none => fmrtSubs env tl acc

end

/-- The sort key of a subfolder in `sortTreeByDate`: the first date of its
most recent track, or `new Date(0)` when it has none. -/
def folderKey (env : Str → Option Str) (t : TreeNode) : Option ℤ :=
  match findMostRecentTrack env t with
  | some tr => getGpxFirstDate env tr
  | none => some 0

/-- The ascending file comparator `(a, b) => a.date - b.date` of
`sortTreeByDate` as the ordering relation of the stable sort. -/
def fileOrder (env : Str → Option Str) (f g : Str) : Prop :=
  jsLeOpt (getGpxFirstDate env f) (getGpxFirstDate env g) = true

instance (env : Str → Option Str) : DecidableRel (fileOrder env) := fun _ _ =>
  instDecidableEqBool _ _

/-- The descending folder comparator `(a, b) => b.date - a.date` of
`sortTreeByDate` as the ordering relation of the stable sort. -/
def folderOrder (env : Str → Option Str) (a b : Str × TreeNode) : Prop :=
  jsLeOpt (folderKey env b.2) (folderKey env a.2) = true

instance (env : Str → Option Str) : DecidableRel (folderOrder env) := fun _ _ =>
  instDecidableEqBool _ _

/-- Whether a property name is an ECMAScript array index: the canonical
decimal string of an integer in `[0, 2^32 - 2]` (no leading zeros). -/
def isArrayIndexKey (s : Str) : Bool :=
  s ≠ [] && s.all isDigitCh && (s.head? ≠ some '0' || s = ['0']) &&
    digitsVal s ≤ 4294967294

/-- Ascending numeric order on array-index property names. -/
def idxKeyOrder (a b : Str × TreeNode) : Prop := digitsVal a.1 ≤ digitsVal b.1

instance : DecidableRel idxKeyOrder := fun a b => Nat.decLe _ _

/-- The order in which `Object.entries`/`Object.keys`/`Object.values`
enumerate a plain object's string-keyed properties, given its storage table
in creation order: array-index keys first, in ascending numeric order, then
the remaining keys in creation order. -/
def jsEntriesOrder (l : List (Str × TreeNode)) : List (Str × TreeNode) :=
  List.insertionSort idxKeyOrder (l.filter (fun kv => isArrayIndexKey kv.1)) ++
    l.filter (fun kv => !isArrayIndexKey kv.1)

mutual

/-- Model of `sortTreeByDate`: stably sort the node's files ascending by
`getGpxFirstDate`, recursively sort every subfolder, then rebuild the
`subfolders` object by assigning its entries in stably sorted descending
order of the date of each subfolder's most recent track (the resulting
storage table is that assignment order). -/
def sortTreeByDate (env : Str → Option Str) : TreeNode → TreeNode
  | .mk name files subs =>
    let files2 := List.insertionSort (fileOrder env) files
    let subs2 := sortSubfolders env subs
    .mk name files2 (List.insertionSort (folderOrder env) subs2)

/-- The recursive `for (const [folderName, folderNode] of folderEntries)`
pass of `sortTreeByDate`, in place (entry order unchanged). -/
def sortSubfolders (env : Str → Option Str) :
    List (Str × TreeNode) → List (Str × TreeNode)
  | [] => []
  | (k, v) :: tl => (k, sortTreeByDate env v) :: sortSubfolders env tl

end

mutual

/-- All file identifiers of a tree in depth-first order: the files of a node
before the files of its subfolders, subfolders in entry order. -/
def dfsFiles : TreeNode → List Str
  | .mk _ files subs => files ++ dfsFilesSubs subs

def dfsFilesSubs : List (Str × TreeNode) → List Str
  | [] => []
  | (_, v) :: tl => dfsFiles v ++ dfsFilesSubs tl

end

/-! ### Specification-side definitions -/

/-- Reconstruct a path from segments: the claim's
"root name / ancestor folder names / final filename segment". -/
def joinSlash (segs : List Str) : Str := List.intercalate ['/'] segs

/-- The files stored at the node reached from `t` by the chain of subfolder
names `chain` (empty when the chain is broken). -/
def filesAt : TreeNode → List Str → List Str
  | t, [] => t.files
  | t, c :: rest =>
    match lookupSub t.subfolders c with
    | some child => filesAt child rest
    | none => []

/-- Adjacent-pairs ordering check: `l` is sorted under `le`. -/
def orderedByB (le : α → α → Bool) : List α → Bool
  | [] => true
  | [_] => true
  | a :: b :: tl => le a b && orderedByB le (b :: tl)

mutual

/-- The tree is date-sorted everywhere: in every folder the files are in
ascending `getGpxFirstDate` order and the subfolder entries are in descending
`folderKey` order. -/
def dateSortedB (env : Str → Option Str) : TreeNode → Bool
  | .mk _ files subs =>
    orderedByB (fun f g => jsLeOpt (getGpxFirstDate env f) (getGpxFirstDate env g)) files &&
    orderedByB (fun a b => jsLeOpt (folderKey env b.2) (folderKey env a.2)) subs &&
    allSubsSortedB env subs

def allSubsSortedB (env : Str → Option Str) : List (Str × TreeNode) → Bool
  | [] => true
  | (_, v) :: tl => dateSortedB env v && allSubsSortedB env tl

end

mutual

/-- Like `dateSortedB`, but the descending-by-date check on the subfolders is
made on the object's actual `Object.entries` iteration order
(`jsEntriesOrder`), not on its storage table. -/
def iterSortedB (env : Str → Option Str) : TreeNode → Bool
  | .mk _ files subs =>
    orderedByB (fun f g => jsLeOpt (getGpxFirstDate env f) (getGpxFirstDate env g)) files &&
    orderedByB (fun a b => jsLeOpt (folderKey env b.2) (folderKey env a.2))
      (jsEntriesOrder subs) &&
    allSubsIterSortedB env subs

def allSubsIterSortedB (env : Str → Option Str) : List (Str × TreeNode) → Bool
  | [] => true
  | (_, v) :: tl => iterSortedB env v && allSubsIterSortedB env tl

end

mutual

/-- No folder name anywhere in the tree is an ECMAScript array-index string
(the fragment in which storage order and iteration order coincide). -/
def noIndexKeysB : TreeNode → Bool
  | .mk _ _ subs => subsNoIndexKeysB subs

def subsNoIndexKeysB : List (Str × TreeNode) → Bool
  | [] => true
  | (k, v) :: tl => !isArrayIndexKey k && noIndexKeysB v && subsNoIndexKeysB tl

end

/-- Every path's first date is an actual date value (no Invalid Dates), so
every sort comparator the module builds from `env` is consistent.  (With an
Invalid Date the JS comparator returns NaN and ECMAScript leaves the sort
order implementation-defined.) -/
def validEnv (env : Str → Option Str) : Prop :=
  ∀ p : Str, getGpxFirstDate env p ≠ none

/-- The merge of a completed recursive search result into the running state of
`findMostRecentTrack` (keep the incoming winner only if strictly more
recent). -/
def mergeState (acc b : Option Str × Option ℤ) : Option Str × Option ℤ :=
  if jsGtOpt b.2 acc.2 then b else acc

/-- Invariant of the `(mostRecent, mostRecentDate)` state: the date is an
actual value not before the epoch, it is the date of the held file, and it is
the epoch while no file is held. -/
def StateInv (env : Str → Option Str) (acc : Option Str × Option ℤ) : Prop :=
  (∃ a : ℤ, acc.2 = some a ∧ 0 ≤ a) ∧
  (∀ f, acc.1 = some f → acc.2 = getGpxFirstDate env f) ∧
  (acc.1 = none → acc.2 = some 0)

/-- The haversine great-circle distance between two points given in degrees,
as the specification states it: Earth radius 6,371,000 m, degrees converted
to radians, `d = 2 R arcsin √a`. -/
noncomputable def haversineSpec (p q : ℚ × ℚ) : ℝ :=
  let rad : ℝ → ℝ := fun x => x * Real.pi / 180
  let dLat := rad ((q.1 : ℝ) - (p.1 : ℝ))
  let dLon := rad ((q.2 : ℝ) - (p.2 : ℝ))
  let a := Real.sin (dLat / 2) ^ 2 +
    Real.cos (rad (p.1 : ℝ)) * Real.cos (rad (q.1 : ℝ)) * Real.sin (dLon / 2) ^ 2
  2 * 6371000 * Real.arcsin (Real.sqrt a)

/-- Sum of the haversine distances over each consecutive pair of points in
document order. -/
noncomputable def haversineSumSpec (pts : List (ℚ × ℚ)) : ℝ :=
  ((pts.zip pts.tail).map (fun pq => haversineSpec pq.1 pq.2)).sum

/-- A fully-parseable coordinate pair as it appears in `gpxCoords` output. -/
def optPair (r : ℚ × ℚ) : Option ℚ × Option ℚ := (some r.1, some r.2)

/-! ### Concrete inputs used by witnesses and counterexamples -/

/-- The spec's scenario text: two timestamped track points, one degree of
longitude apart on the equator. -/
def demoGpxText : Str :=
  ("<gpx><trk><trkseg><trkpt lat=\"0\" lon=\"0\"><time>2024-01-01T00:00:00Z</time></trkpt><trkpt lat=\"0\" lon=\"1\"><time>2024-01-01T01:30:00Z</time></trkpt></trkseg></trk></gpx>".toList)

/-- Two parseable track points but no `<time>` elements at all. -/
def noTimeText : Str :=
  ("<gpx><trkpt lat=\"0\" lon=\"0\"></trkpt><trkpt lat=\"0\" lon=\"1\"></trkpt></gpx>".toList)

/-- Two timestamps in reverse chronological document order. -/
def revTimeText : Str :=
  ("<gpx><time>2024-01-01T01:30:00Z</time><time>2024-01-01T00:00:00Z</time></gpx>".toList)

/-- A `<time>` element whose content the `Date` constructor cannot parse. -/
def badTimeText : Str := ("<time>not-a-date</time>".toList)

/-- Environment in which every fetch fails, so every file falls back to the
epoch date. -/
def envEpoch : Str → Option Str := fun _ => none

/-- Environment serving the scenario text for every path. -/
def envDemo : Str → Option Str := fun _ => some demoGpxText

/-- A small two-level tree used to instantiate the tree theorems. -/
def treeW : TreeNode :=
  .mk ("gpxFiles".toList)
    [("gpxFiles/a.gpx".toList), ("gpxFiles/b.gpx".toList)]
    [(("sub".toList), .mk ("sub".toList) [("gpxFiles/sub/c.gpx".toList)] [])]

/-- A track recorded in 2023. -/
def y23Text : Str := ("<gpx><time>2023-06-01T00:00:00Z</time></gpx>".toList)

/-- A track recorded in 2024. -/
def y24Text : Str := ("<gpx><time>2024-06-01T00:00:00Z</time></gpx>".toList)

def y23File : Str := ("gpxFiles/2023/a.gpx".toList)

def y24File : Str := ("gpxFiles/2024/b.gpx".toList)

/-- Environment for the year-folder tree: the 2023 folder's track is older
than the 2024 folder's; every other fetch fails (epoch). -/
def envYears : Str → Option Str := fun p =>
  if p = y23File then some y23Text
  else if p = y24File then some y24Text
  else none

/-- A root with two subfolders whose names are array-index strings (years),
created in ascending-year order. -/
def treeYears : TreeNode :=
  .mk ("gpxFiles".toList) []
    [(("2023".toList), .mk ("2023".toList) [y23File] []),
     (("2024".toList), .mk ("2024".toList) [y24File] [])]

/-! ### General helpers -/

/-- Strong induction principle for the nested `TreeNode` type. -/
theorem treeNode_strong_ind (P : TreeNode → Prop)
    (h : ∀ name files subs, (∀ k v, (k, v) ∈ subs → P v) → P (TreeNode.mk name files subs)) :
    ∀ t, P t := by
  have main : ∀ n t, sizeOf t ≤ n → P t := by
    intro n
    induction n with
    | zero =>
      intro t ht
      cases t with
      | mk name files subs =>
        simp only [TreeNode.mk.sizeOf_spec] at ht
        omega
    | succ n ih =>
      intro t ht
      cases t with
      | mk name files subs =>
        apply h
        intro k v hm
        have h1 := List.sizeOf_lt_of_mem hm
        have h2 : sizeOf v < sizeOf (k, v) := by
          simp only [Prod.mk.sizeOf_spec]; omega
        have h3 : sizeOf subs < sizeOf (TreeNode.mk name files subs) := by
          simp only [TreeNode.mk.sizeOf_spec]; omega
        exact ih v (by omega)
  intro t
  exact main (sizeOf t) t le_rfl

theorem getD_zero_eq_headD (l : List α) (d : α) : l.getD 0 d = l.headD d := by
  cases l <;> rfl

theorem getD_pred_length_eq_getLastD (l : List α) (d : α) (h : l ≠ []) :
    l.getD (l.length - 1) d = l.getLastD d := by
  induction l generalizing d with
  | nil => exact absurd rfl h
  | cons x tl ih =>
    cases tl with
    | nil => rfl
    | cons y tl2 =>
      have : (x :: y :: tl2).getD ((x :: y :: tl2).length - 1) d =
          (y :: tl2).getD ((y :: tl2).length - 1) d := by
        simp [List.getD]
      rw [this, ih d (by simp)]
      rfl

/-! ### C3 : behaviour of `fetchGpxTree` on a missing or empty listing -/

/-- C3 counterexample: when the remote listing cannot be fetched (or the
response carries no `tree` field), `fetchGpxTree` returns the bare empty
object literal, which is not the claimed empty `TreeNode` with its `name`
field set and both collections empty. -/
theorem c3_counterexample :
    fetchGpxTree ("gpxFiles".toList) none = FetchTreeResult.emptyObj ∧
    FetchTreeResult.emptyObj ≠
      FetchTreeResult.tree (TreeNode.mk ("gpxFiles".toList) [] []) :=
  ⟨rfl, fun h => FetchTreeResult.noConfusion h⟩

/-- C3 amended: when the listing cannot be fetched or the response has no
`tree` field, `fetchGpxTree` returns the bare empty object; when the listing
is fetched and its `tree` array contains no entries, it returns the empty
`TreeNode` with the root name set and both collections empty. -/
theorem c3_failure_and_empty_listing (rootName : Str) :
    fetchGpxTree rootName none = FetchTreeResult.emptyObj ∧
    fetchGpxTree rootName (some []) = FetchTreeResult.tree (TreeNode.mk rootName [] []) :=
  ⟨rfl, rfl⟩

/-! ### C7 : `getGpxFirstDate` on unparseable content -/

/-- C7: a file whose `<time>` element holds an unparseable timestamp makes
`getGpxFirstDate` return an Invalid Date (`none`), not the epoch that both the
claim and the function's own doc comment ("Returns new Date(0) if no valid
date found") promise; a fetch failure does produce the epoch. -/
theorem c7_unparseable_time_gives_invalid_date :
    getGpxFirstDate (fun _ => some badTimeText) [] = none ∧
    getGpxFirstDate envEpoch [] = some 0 := by
  refine ⟨?_, rfl⟩
  decide

/-! ### C10 : early return of `parseGpxInfo` on missing timestamps -/

/-- C10: with fewer than two `<time>` elements `parseGpxInfo` returns
`distanceMeters = 0` no matter how many coordinate points the text contains,
because the timestamp check returns before any coordinate is examined. -/
theorem c10_distance_zero_when_few_times (text : Str)
    (h : (gpxTimes text).length < 2) :
    (parseGpxInfo text).distanceMeters = some 0 := by
  simp [parseGpxInfo, h]

/-- C10 witness: a text with two parseable track points and no `<time>`
element still gets distance `0`. -/
theorem c10_witness :
    2 ≤ (gpxCoords noTimeText).length ∧
    (parseGpxInfo noTimeText).distanceMeters = some 0 :=
  ⟨by decide, c10_distance_zero_when_few_times noTimeText (by decide)⟩

/-! ### C2 : duration semantics of `parseGpxInfo` -/

/-- C2: with fewer than two `<time>` elements the duration is `0`; otherwise
it is (last timestamp − first timestamp) in seconds in document order, with no
reordering and no clamping, and it can indeed be negative for out-of-order
timestamps. -/
theorem c2_duration_last_minus_first :
    (∀ text : Str,
      ((gpxTimes text).length < 2 → (parseGpxInfo text).durationSeconds = some 0) ∧
      (2 ≤ (gpxTimes text).length →
        (parseGpxInfo text).durationSeconds =
          jsDateDiffSec ((gpxTimes text).getLastD none) ((gpxTimes text).headD none))) ∧
    (∃ text : Str, ∃ q : ℚ, (parseGpxInfo text).durationSeconds = some q ∧ q < 0) := by
  constructor
  · intro text
    constructor
    · intro h
      simp [parseGpxInfo, h]
    · intro h
      have hne : ¬ (gpxTimes text).length < 2 := by omega
      have hnil : gpxTimes text ≠ [] := by
        intro hc
        rw [hc] at h
        simp at h
      simp only [parseGpxInfo, if_neg hne]
      rw [getD_pred_length_eq_getLastD _ _ hnil, getD_zero_eq_headD]
      split <;> rfl
  · exact ⟨revTimeText, -5400, by decide, by decide⟩

/-- C2 witness: the spec's scenario text yields a duration of 5400 seconds. -/
theorem c2_witness : (parseGpxInfo demoGpxText).durationSeconds = some 5400 := by
  have h := (c2_duration_last_minus_first.1 demoGpxText).2 (by decide)
  rw [h]
  decide

/-! ### Tree builder lemmas (C5, C9) -/

theorem splitOn_ne_nil (c : Char) (l : Str) : l.splitOn c ≠ [] := by
  intro h
  have h2 := List.intercalate_splitOn l c
  rw [h] at h2
  have : l = [] := by simpa [List.intercalate] using h2.symm
  subst this
  rw [List.splitOn_nil] at h
  exact List.noConfusion h

theorem lookupSub_setSub (subs : List (Str × TreeNode)) (k : Str) (v : TreeNode)
    (key : Str) :
    lookupSub (setSub subs k v) key = if key = k then some v else lookupSub subs key := by
  induction subs with
  | nil =>
    by_cases h : key = k
    · subst h; simp [setSub, lookupSub]
    · have h2 : ¬ k = key := fun hh => h hh.symm
      simp [setSub, lookupSub, h, h2]
  | cons hd tl ih =>
    obtain ⟨k2, w⟩ := hd
    by_cases h : k2 = k
    · subst h
      by_cases h2 : key = k2
      · subst h2; simp [setSub, lookupSub]
      · have h3 : ¬ k2 = key := fun hh => h2 hh.symm
        simp [setSub, lookupSub, h2, h3]
    · by_cases h2 : k2 = key
      · subst h2
        simp [setSub, lookupSub, h, fun hh : k2 = k => h hh]
      · simp [setSub, lookupSub, h, h2, ih]

theorem filesAt_fresh (x : Str) (r : List Str) :
    filesAt (TreeNode.mk x [] []) r = [] := by
  cases r with
  | nil => rfl
  | cons c rest => rfl

/-- The child node that `insertPath` descends into behaves, for `filesAt`,
exactly like the original node's subfolder access. -/
theorem filesAt_child (name : Str) (files : List Str) (subs : List (Str × TreeNode))
    (p : Str) (r : List Str) :
    filesAt
      (match lookupSub subs p with
        | some c => c
        | none => TreeNode.mk p [] []) r =
    filesAt (TreeNode.mk name files subs) (p :: r) := by
  cases hlk : lookupSub subs p with
  | some ch => simp [filesAt, TreeNode.subfolders, hlk]
  | none => simp [filesAt, TreeNode.subfolders, hlk, filesAt_fresh]

theorem filesAt_insertPath (parts : List Str) (h : parts ≠ []) (n : TreeNode)
    (full : Str) (chain : List Str) :
    filesAt (insertPath n parts full) chain =
      if chain = parts.dropLast then filesAt n chain ++ [full] else filesAt n chain := by
  induction parts generalizing n chain with
  | nil => exact absurd rfl h
  | cons p rest ih =>
    cases rest with
    | nil =>
      obtain ⟨name, files, subs⟩ := n
      cases chain with
      | nil => simp [insertPath, filesAt, TreeNode.files]
      | cons c r => simp [insertPath, filesAt, TreeNode.subfolders]
    | cons q rest2 =>
      obtain ⟨name, files, subs⟩ := n
      have hne : (q :: rest2 : List Str) ≠ [] := by simp
      cases chain with
      | nil =>
        simp [insertPath, filesAt, TreeNode.files, List.dropLast_cons₂]
      | cons c r =>
        rw [List.dropLast_cons₂]
        by_cases hc : c = p
        · subst hc
          have hstep :
              filesAt (insertPath (TreeNode.mk name files subs) (c :: q :: rest2) full)
                (c :: r) =
              filesAt
                (insertPath
                  (match lookupSub subs c with
                    | some ch => ch
                    | none => TreeNode.mk c [] []) (q :: rest2) full) r := by
            simp [insertPath, filesAt, TreeNode.subfolders, lookupSub_setSub]
          rw [hstep, ih hne, filesAt_child name files]
          by_cases hr : r = (q :: rest2).dropLast
          · simp [hr]
          · have : ¬ (c :: r = c :: (q :: rest2).dropLast) := by
              intro hh; exact hr (List.cons.injEq .. ▸ hh).2
            simp [hr, this]
        · have hlk :
              lookupSub (setSub subs p (insertPath
                (match lookupSub subs p with
                  | some ch => ch
                  | none => TreeNode.mk p [] []) (q :: rest2) full)) c =
              lookupSub subs c := by
            rw [lookupSub_setSub]
            simp [hc]
          have hcond : ¬ (c :: r = p :: (q :: rest2).dropLast) := by
            intro hh; exact hc (List.cons.injEq .. ▸ hh).1
          simp only [insertPath, filesAt, TreeNode.subfolders, hlk, if_neg hcond]


theorem dfsFiles_fresh (x : Str) : dfsFiles (TreeNode.mk x [] []) = [] := rfl

/-- Inserting a path adds exactly one copy of the file identifier to the
tree's multiset of files. -/
theorem dfsFiles_insertPath_perm (parts : List Str) (h : parts ≠ []) (n : TreeNode)
    (full : Str) :
    (dfsFiles (insertPath n parts full)).Perm (full :: dfsFiles n) := by
  induction parts generalizing n with
  | nil => exact absurd rfl h
  | cons p rest ih =>
    cases rest with
    | nil =>
      obtain ⟨name, files, subs⟩ := n
      simp only [insertPath, dfsFiles, List.append_assoc]
      exact List.perm_middle
    | cons q rest2 =>
      obtain ⟨name, files, subs⟩ := n
      have hne : (q :: rest2 : List Str) ≠ [] := by simp
      simp only [insertPath, dfsFiles]
      have key : ∀ subs2 : List (Str × TreeNode),
          (dfsFilesSubs (setSub subs2 p (insertPath
            (match lookupSub subs2 p with
              | some c => c
              | none => TreeNode.mk p [] []) (q :: rest2) full))).Perm
          (full :: dfsFilesSubs subs2) := by
        intro subs2
        induction subs2 with
        | nil =>
          simp only [lookupSub, setSub, dfsFilesSubs]
          have h1 := ih hne (TreeNode.mk p [] [])
          rw [dfsFiles_fresh] at h1
          simpa using h1
        | cons hd tl ih2 =>
          obtain ⟨k2, w⟩ := hd
          by_cases hk : k2 = p
          · subst hk
            simp only [lookupSub, setSub, if_pos rfl, dfsFilesSubs]
            exact (ih hne w).append_right _
          · simp only [lookupSub, setSub, if_neg hk, dfsFilesSubs]
            exact (ih2.append_left (dfsFiles w)).trans List.perm_middle
      exact ((key subs).append_left files).trans List.perm_middle

theorem intercalate_cons_of_ne_nil (sep x : Str) (ys : List Str) (h : ys ≠ []) :
    List.intercalate sep (x :: ys) = x ++ sep ++ List.intercalate sep ys := by
  cases ys with
  | nil => exact absurd rfl h
  | cons y ys2 =>
    simp [List.intercalate, List.intersperse_cons_cons, List.append_assoc]

theorem filesAt_base (rootName : Str) (chain : List Str) (f : Str) :
    f ∈ filesAt (TreeNode.mk rootName [] []) chain → False := by
  intro hf
  rw [filesAt_fresh] at hf
  exact List.not_mem_nil f hf

/-- The foldl invariant behind C5: every file reachable in the accumulator
reconstructs its path from the root name and its chain of folders. -/
theorem buildRoot_fold_inv (rootName : Str) (paths : List Str) (acc : TreeNode)
    (hacc : ∀ chain f, f ∈ filesAt acc chain →
      ∃ seg : Str, f = joinSlash (rootName :: (chain ++ [seg]))) :
    ∀ chain f,
      f ∈ filesAt
        (paths.foldl
          (fun acc p =>
            if isGpxUnder rootName p then
              insertPath acc ((p.drop (rootName.length + 1)).splitOn '/') p
            else acc) acc) chain →
      ∃ seg : Str, f = joinSlash (rootName :: (chain ++ [seg])) := by
  induction paths generalizing acc with
  | nil => exact hacc
  | cons p tl ih =>
    simp only [List.foldl_cons]
    by_cases hp : isGpxUnder rootName p
    · rw [if_pos hp]
      apply ih
      intro chain f hf
      have hsplit := splitOn_ne_nil '/' (p.drop (rootName.length + 1))
      rw [filesAt_insertPath _ hsplit] at hf
      by_cases hch : chain = ((p.drop (rootName.length + 1)).splitOn '/').dropLast
      · rw [if_pos hch] at hf
        rcases List.mem_append.mp hf with hold | hnew
        · exact hacc chain f hold
        · obtain rfl : f = p := List.mem_singleton.mp hnew
          refine ⟨((f.drop (rootName.length + 1)).splitOn '/').getLast hsplit, ?_⟩
          rw [hch, List.dropLast_append_getLast hsplit]
          -- goal : p = joinSlash (rootName :: (p.drop …).splitOn '/')
          have hpre : (rootName ++ ['/']).isPrefixOf f = true := by
            have hp2 := hp
            simp only [isGpxUnder, Bool.and_eq_true] at hp2
            exact hp2.1
          obtain ⟨t, ht⟩ := List.isPrefixOf_iff_prefix.mp hpre
          have hdrop : f.drop (rootName.length + 1) = t := by
            rw [← ht]
            have : (rootName ++ ['/']).length = rootName.length + 1 := by simp
            rw [← this, List.drop_left]
          rw [hdrop]
          unfold joinSlash
          rw [intercalate_cons_of_ne_nil _ _ _ (splitOn_ne_nil '/' t),
            List.intercalate_splitOn, ← ht]
      · rw [if_neg hch] at hf
        exact hacc chain f hf
    · rw [if_neg hp]
      exact ih acc hacc

/-- C5: every file entry stored at a leaf of the built tree reconstructs its
original input path: root name, then the chain of ancestor folder names, then
the final filename segment, joined with `/`, equals the stored (original)
path. -/
theorem c5_leaf_reconstructs_path (rootName : Str) (paths : List Str)
    (chain : List Str) (f : Str)
    (hf : f ∈ filesAt (buildRoot rootName paths) chain) :
    ∃ seg : Str, f = joinSlash (rootName :: (chain ++ [seg])) := by
  unfold buildRoot at hf
  exact buildRoot_fold_inv rootName paths _
    (fun chain f hf => absurd hf (fun h => filesAt_base rootName chain f h))
    chain f hf

/-- C5 witness: the spec's scenario, instantiated at the leaf `root/a/1.gpx`
reached through the subfolder chain `[a]`. -/
theorem c5_witness :
    ("root/a/1.gpx".toList) ∈ filesAt
      (buildRoot ("root".toList)
        [("root/a/1.gpx".toList), ("root/b/2.gpx".toList), ("root/3.gpx".toList)])
      [("a".toList)] ∧
    ∃ seg : Str, ("root/a/1.gpx".toList) =
      joinSlash (("root".toList) :: ([("a".toList)] ++ [seg])) :=
  ⟨by decide,
    c5_leaf_reconstructs_path ("root".toList)
      [("root/a/1.gpx".toList), ("root/b/2.gpx".toList), ("root/3.gpx".toList)]
      [("a".toList)] ("root/a/1.gpx".toList) (by decide)⟩

theorem count_eq_of_perm {l1 l2 : List Str} (h : l1.Perm l2) (q : Str) :
    l1.count q = l2.count q := by
  unfold List.count
  exact h.countP_eq _

/-- The foldl lemma behind C9: each processed path contributes one file entry
if and only if it matches the root-directory/`.gpx` filter, with multiplicity. -/
theorem buildRoot_fold_count (rootName : Str) (paths : List Str) (acc : TreeNode)
    (q : Str) :
    (dfsFiles
      (paths.foldl
        (fun acc p =>
          if isGpxUnder rootName p then
            insertPath acc ((p.drop (rootName.length + 1)).splitOn '/') p
          else acc) acc)).count q =
    (dfsFiles acc).count q +
      (paths.filter (fun p => isGpxUnder rootName p && p == q)).length := by
  induction paths generalizing acc with
  | nil => simp
  | cons p tl ih =>
    simp only [List.foldl_cons, List.filter_cons]
    cases hp : isGpxUnder rootName p with
    | true =>
      rw [if_pos rfl, ih]
      have hperm := dfsFiles_insertPath_perm
        ((p.drop (rootName.length + 1)).splitOn '/')
        (splitOn_ne_nil '/' (p.drop (rootName.length + 1))) acc p
      rw [count_eq_of_perm hperm q, List.count_cons]
      cases hq : (p == q) with
      | true => simp [hp, hq]; omega
      | false => simp [hp, hq]
    | false =>
      rw [if_neg Bool.false_ne_true, ih]
      simp

/-- C9: the tree builder inserts exactly the input paths that start with
`rootPrefix + "/"` and end with `.gpx` (others are ignored, so the build
equals the build of the filtered listing), and it does not deduplicate: every
matching path occurs in the tree's file multiset exactly as many times as it
occurs in the input listing. -/
theorem c9_exact_paths_no_dedup (rootName : Str) (paths : List Str) :
    buildRoot rootName paths =
      buildRoot rootName (paths.filter (isGpxUnder rootName)) ∧
    ∀ q : Str, (dfsFiles (buildRoot rootName paths)).count q =
      (paths.filter (fun p => isGpxUnder rootName p && p == q)).length := by
  constructor
  · unfold buildRoot
    generalize TreeNode.mk rootName [] [] = acc
    induction paths generalizing acc with
    | nil => rfl
    | cons p tl ih =>
      simp only [List.foldl_cons, List.filter_cons]
      cases hp : isGpxUnder rootName p with
      | true =>
        rw [if_pos rfl, if_pos rfl, List.foldl_cons, if_pos hp]
        exact ih _
      | false =>
        rw [if_neg Bool.false_ne_true]
        exact ih _
  · intro q
    unfold buildRoot
    rw [buildRoot_fold_count]
    simp [dfsFiles, dfsFilesSubs]

/-! ### C1 : the distance computation -/

/-- On the arguments `haversine` actually feeds it, `Math.atan2` computes the
arcsine of `√a` (the two formulations of the haversine formula agree; for
`a` outside `[0, 1]` both sides clamp the same way). -/
theorem jsAtan2_sqrt_eq_arcsin (a : ℝ) :
    jsAtan2 (Real.sqrt a) (Real.sqrt (1 - a)) = Real.arcsin (Real.sqrt a) := by
  by_cases h0 : a ≤ 0
  · have hs : Real.sqrt a = 0 := Real.sqrt_eq_zero'.mpr h0
    have hx : 0 < Real.sqrt (1 - a) := Real.sqrt_pos.mpr (by linarith)
    rw [hs]
    unfold jsAtan2
    rw [if_pos hx, zero_div, Real.arctan_zero, Real.arcsin_zero]
  · push_neg at h0
    by_cases h1 : a < 1
    · have hx : 0 < Real.sqrt (1 - a) := Real.sqrt_pos.mpr (by linarith)
      unfold jsAtan2
      rw [if_pos hx]
      have hlt : Real.sqrt a < 1 := by
        have h2 : Real.sqrt a < Real.sqrt 1 := Real.sqrt_lt_sqrt (le_of_lt h0) h1
        rwa [Real.sqrt_one] at h2
      have hmem : Real.sqrt a ∈ Set.Ioo (-1 : ℝ) 1 :=
        ⟨lt_of_lt_of_le (by norm_num) (Real.sqrt_nonneg a), hlt⟩
      rw [Real.arcsin_eq_arctan hmem, Real.sq_sqrt (le_of_lt h0)]
    · push_neg at h1
      have hz : Real.sqrt (1 - a) = 0 := Real.sqrt_eq_zero'.mpr (by linarith)
      have hy : 0 < Real.sqrt a := Real.sqrt_pos.mpr (by linarith)
      unfold jsAtan2
      rw [hz, if_neg (lt_irrefl 0), if_neg (lt_irrefl 0), if_pos hy,
        Real.arcsin_of_one_le (Real.one_le_sqrt.mpr h1)]

/-- The transcribed `haversine` helper equals the specification's haversine
formula. -/
theorem haversineJs_eq_spec (p q : ℚ × ℚ) :
    haversineJs (p.1 : ℝ) (p.2 : ℝ) (q.1 : ℝ) (q.2 : ℝ) = haversineSpec p q := by
  simp only [haversineJs, haversineSpec]
  rw [jsAtan2_sqrt_eq_arcsin]
  ring

theorem two_R_arcsin_sqrt_nonneg (x : ℝ) :
    0 ≤ 2 * (6371000 : ℝ) * Real.arcsin (Real.sqrt x) :=
  mul_nonneg (by norm_num) (Real.arcsin_nonneg.mpr (Real.sqrt_nonneg x))

theorem haversineSpec_nonneg (p q : ℚ × ℚ) : 0 ≤ haversineSpec p q := by
  simp only [haversineSpec]
  exact two_R_arcsin_sqrt_nonneg _

theorem haversineSumSpec_nonneg (pts : List (ℚ × ℚ)) : 0 ≤ haversineSumSpec pts := by
  unfold haversineSumSpec
  apply List.sum_nonneg
  intro x hx
  obtain ⟨pq, _, rfl⟩ := List.mem_map.mp hx
  exact haversineSpec_nonneg pq.1 pq.2

theorem map_optPair_tail (pts : List (ℚ × ℚ)) :
    (pts.map optPair).tail = pts.tail.map optPair := by
  cases pts <;> rfl

theorem distanceLoop_fold (zs : List ((ℚ × ℚ) × (ℚ × ℚ))) (x : ℝ) :
    zs.foldl
      (fun acc pq => jsAddR acc (haversineOpt (Prod.map optPair optPair pq).1
        (Prod.map optPair optPair pq).2)) (some x) =
    some (x + (zs.map (fun pq => haversineSpec pq.1 pq.2)).sum) := by
  induction zs generalizing x with
  | nil => simp
  | cons hd tl ih =>
    obtain ⟨p, q⟩ := hd
    rw [List.foldl_cons]
    have hstep :
        jsAddR (some x) (haversineOpt (Prod.map optPair optPair (p, q)).1
          (Prod.map optPair optPair (p, q)).2) =
        some (x + haversineSpec p q) := by
      show some (x + haversineJs (p.1 : ℝ) (p.2 : ℝ) (q.1 : ℝ) (q.2 : ℝ)) = _
      rw [haversineJs_eq_spec]
    rw [hstep, ih, List.map_cons, List.sum_cons]
    congr 1
    ring

/-- The distance accumulation loop on an all-parseable coordinate list
computes the specification's haversine sum. -/
theorem distanceLoop_eq_spec (pts : List (ℚ × ℚ)) :
    distanceLoop (pts.map optPair) = some (haversineSumSpec pts) := by
  unfold distanceLoop haversineSumSpec
  rw [map_optPair_tail, List.zip_map, List.foldl_map, distanceLoop_fold]
  congr 1
  ring

/-- C1 (amended): when the text also contains at least two `<time>` elements,
`parseGpxInfo` returns a distance equal to the sum over consecutive pairs of
track points of the haversine great-circle distance (Earth radius 6,371,000 m,
degrees converted to radians), and that sum is non-negative. -/
theorem c1_distance_is_haversine_sum (text : Str) (pts : List (ℚ × ℚ))
    (hc : gpxCoords text = pts.map optPair)
    (ht : 2 ≤ (gpxTimes text).length)
    (hp : 2 ≤ pts.length) :
    (parseGpxInfo text).distanceMeters = some (haversineSumSpec pts) ∧
    0 ≤ haversineSumSpec pts := by
  have hne : ¬ (gpxTimes text).length < 2 := by omega
  have hlen : (gpxCoords text).length = pts.length := by rw [hc]; simp
  have hclt : ¬ (gpxCoords text).length < 2 := by omega
  refine ⟨?_, haversineSumSpec_nonneg pts⟩
  simp only [parseGpxInfo, if_neg hne, if_neg hclt]
  rw [hc, distanceLoop_eq_spec]

/-- C1 counterexample: a text with two parseable track points one degree of
longitude apart but no `<time>` element gets `distanceMeters = 0` from
`parseGpxInfo`, while the claimed pairwise haversine sum is strictly
positive — so the claim as stated (without a timestamp hypothesis) is false
at this input. -/
theorem c1_counterexample :
    gpxCoords noTimeText = [((0 : ℚ), (0 : ℚ)), ((0 : ℚ), (1 : ℚ))].map optPair ∧
    (parseGpxInfo noTimeText).distanceMeters = some 0 ∧
    (parseGpxInfo noTimeText).distanceMeters ≠
      some (haversineSumSpec [((0 : ℚ), (0 : ℚ)), ((0 : ℚ), (1 : ℚ))]) := by
  have hz : (parseGpxInfo noTimeText).distanceMeters = some 0 := by
    have h : (gpxTimes noTimeText).length < 2 := by decide
    simp [parseGpxInfo, h]
  refine ⟨by decide, hz, ?_⟩
  rw [hz]
  intro hcontra
  have hsum : haversineSumSpec [((0 : ℚ), (0 : ℚ)), ((0 : ℚ), (1 : ℚ))] = (0 : ℝ) :=
    (Option.some.injEq .. ▸ hcontra).symm
  have hpos : 0 < haversineSumSpec [((0 : ℚ), (0 : ℚ)), ((0 : ℚ), (1 : ℚ))] := by
    unfold haversineSumSpec
    simp only [List.zip, List.zipWith, List.map_cons, List.map_nil, List.sum_cons,
      List.sum_nil, add_zero]
    simp only [haversineSpec]
    have hs : (0 : ℝ) < Real.sin (Real.pi / 180 / 2) := by
      apply Real.sin_pos_of_pos_of_lt_pi
      · have := Real.pi_pos
        linarith
      · have hpi := Real.pi_pos
        nlinarith
    have ha : (0 : ℝ) <
        Real.sin ((((0 : ℚ) : ℝ) - ((0 : ℚ) : ℝ)) * Real.pi / 180 / 2) ^ 2 +
        Real.cos (((0 : ℚ) : ℝ) * Real.pi / 180) * Real.cos (((0 : ℚ) : ℝ) * Real.pi / 180) *
          Real.sin ((((1 : ℚ) : ℝ) - ((0 : ℚ) : ℝ)) * Real.pi / 180 / 2) ^ 2 := by
      push_cast
      simp only [sub_zero, zero_sub, zero_mul, zero_div, Real.sin_zero, Real.cos_zero,
        one_mul, mul_zero]
      norm_num
      exact pow_pos hs 2
    have harc : 0 < Real.arcsin (Real.sqrt _) :=
      Real.arcsin_pos.mpr (Real.sqrt_pos.mpr ha)
    positivity
  linarith [hsum ▸ hpos]

/-- C1 witness: the scenario text satisfies the amended hypotheses and the
theorem yields its distance as the haversine sum for
`[(0,0), (0,1)]`. -/
theorem c1_witness :
    (parseGpxInfo demoGpxText).distanceMeters =
      some (haversineSumSpec [((0 : ℚ), (0 : ℚ)), ((0 : ℚ), (1 : ℚ))]) ∧
    0 ≤ haversineSumSpec [((0 : ℚ), (0 : ℚ)), ((0 : ℚ), (1 : ℚ))] :=
  c1_distance_is_haversine_sum demoGpxText [((0 : ℚ), (0 : ℚ)), ((0 : ℚ), (1 : ℚ))]
    (by decide) (by decide) (by decide)

/-! ### C6 : `findMostRecentTrack` -/

theorem fmrtFold_nil (env : Str → Option Str) (acc : Option Str × Option ℤ) :
    fmrtFold env [] acc = acc := rfl

theorem fmrtFold_cons (env : Str → Option Str) (f : Str) (tl : List Str)
    (acc : Option Str × Option ℤ) :
    fmrtFold env (f :: tl) acc =
      fmrtFold env tl
        (if jsGtOpt (getGpxFirstDate env f) acc.2
          then (some f, getGpxFirstDate env f) else acc) := rfl

theorem fmrtFold_append (env : Str → Option Str) (l1 l2 : List Str)
    (acc : Option Str × Option ℤ) :
    fmrtFold env (l1 ++ l2) acc = fmrtFold env l2 (fmrtFold env l1 acc) :=
  List.foldl_append ..

theorem StateInv_init (env : Str → Option Str) : StateInv env (none, some 0) :=
  ⟨⟨0, rfl, le_refl 0⟩, fun _ h => Option.noConfusion h, fun _ => rfl⟩

theorem StateInv_upd (env : Str → Option Str) (acc : Option Str × Option ℤ) (f : Str)
    (h : StateInv env acc) :
    StateInv env
      (if jsGtOpt (getGpxFirstDate env f) acc.2
        then (some f, getGpxFirstDate env f) else acc) := by
  obtain ⟨⟨a, ha, ha0⟩, hcons, hzero⟩ := h
  cases hgt : jsGtOpt (getGpxFirstDate env f) acc.2 with
  | false => simpa [hgt] using ⟨⟨a, ha, ha0⟩, hcons, hzero⟩
  | true =>
    rcases hd : getGpxFirstDate env f with _ | v
    · rw [hd, ha] at hgt
      exact absurd hgt (by simp [jsGtOpt])
    · rw [hd, ha] at hgt
      have hav : a < v := by simpa [jsGtOpt] using hgt
      simp only [if_pos hgt, hd, ha]
      refine ⟨⟨v, rfl, by omega⟩, ?_, ?_⟩
      · intro g hg
        have : f = g := Option.some.injEq .. ▸ hg
        subst this
        exact hd.symm
      · intro hnone
        exact Option.noConfusion hnone

theorem StateInv_fold (env : Str → Option Str) (l : List Str)
    (acc : Option Str × Option ℤ) (h : StateInv env acc) :
    StateInv env (fmrtFold env l acc) := by
  induction l generalizing acc with
  | nil => exact h
  | cons f tl ih =>
    rw [fmrtFold_cons]
    exact ih _ (StateInv_upd env acc f h)

theorem StateInv_merge (env : Str → Option Str) (acc b : Option Str × Option ℤ)
    (ha : StateInv env acc) (hb : StateInv env b) : StateInv env (mergeState acc b) := by
  unfold mergeState
  split
  · exact hb
  · exact ha

/-- The pointwise algebra behind the flattening of `findMostRecentTrack`:
updating with a file and then merging a completed sub-result is the same as
merging the sub-result of a fresh search extended with that file. -/
theorem merge_upd_comm (env : Str → Option Str) (acc I : Option Str × Option ℤ)
    (f : Str) (hacc : ∃ a : ℤ, acc.2 = some a ∧ 0 ≤ a)
    (hI : ∃ i : ℤ, I.2 = some i ∧ 0 ≤ i) :
    mergeState
      (if jsGtOpt (getGpxFirstDate env f) acc.2
        then (some f, getGpxFirstDate env f) else acc) I =
    mergeState acc
      (mergeState
        (if jsGtOpt (getGpxFirstDate env f) (some 0)
          then (some f, getGpxFirstDate env f) else (none, some 0)) I) := by
  obtain ⟨b1, a2⟩ := acc
  obtain ⟨i1, i2⟩ := I
  obtain ⟨a, ha, ha0⟩ := hacc
  obtain ⟨i, hi, hi0⟩ := hI
  simp only at ha hi
  subst ha
  subst hi
  rcases hd : getGpxFirstDate env f with _ | v
  · simp only [jsGtOpt, if_neg Bool.false_ne_true, mergeState, decide_eq_true_eq]
    repeat' split
    all_goals simp_all [jsGtOpt]
    all_goals omega
  · simp only [mergeState, jsGtOpt, decide_eq_true_eq]
    repeat' split
    all_goals simp_all [jsGtOpt]
    all_goals omega

/-- Folding the file comparison loop from an arbitrary valid running state is
the same as folding from the fresh `(null, epoch)` state and merging the
result in with one strict comparison. -/
theorem fmrtFold_shift (env : Str → Option Str) (l : List Str)
    (acc : Option Str × Option ℤ) (h : StateInv env acc) :
    fmrtFold env l acc = mergeState acc (fmrtFold env l (none, some 0)) := by
  induction l generalizing acc with
  | nil =>
    obtain ⟨⟨a, ha, ha0⟩, _, _⟩ := h
    rw [fmrtFold_nil, fmrtFold_nil]
    unfold mergeState
    have hc : jsGtOpt ((none, some (0 : ℤ)) : Option Str × Option ℤ).2 acc.2 = false := by
      rw [ha]
      simp only [jsGtOpt, decide_eq_false_iff_not]
      omega
    rw [hc]
    simp
  | cons f tl ih =>
    rw [fmrtFold_cons, fmrtFold_cons]
    have h1 := ih _ (StateInv_upd env acc f h)
    have h2 := ih _ (StateInv_upd env (none, some 0) f (StateInv_init env))
    rw [h1, h2]
    exact merge_upd_comm env acc (fmrtFold env tl (none, some 0)) f
      h.1 (StateInv_fold env tl (none, some 0) (StateInv_init env)).1

theorem findMostRecentTrack_unfold (env : Str → Option Str) (t : TreeNode) :
    findMostRecentTrack env t =
      (fmrtSubs env t.subfolders (fmrtFold env t.files (none, some 0))).1 := by
  cases t
  rfl

/-- The body of the subfolder loop equals a `mergeState` with the subfolder's
full search state. -/
theorem fmrtSubs_cons_merge (env : Str → Option Str) (k : Str) (v : TreeNode)
    (tl : List (Str × TreeNode)) (acc : Option Str × Option ℤ)
    (hacc : StateInv env acc)
    (hv : StateInv env (fmrtSubs env v.subfolders (fmrtFold env v.files (none, some 0)))) :
    fmrtSubs env ((k, v) :: tl) acc =
      fmrtSubs env tl
        (mergeState acc (fmrtSubs env v.subfolders (fmrtFold env v.files (none, some 0)))) := by
  obtain ⟨name, files, subs⟩ := v
  set S := fmrtSubs env subs (fmrtFold env files (none, some 0)) with hS
  have hfind : findMostRecentTrack env (TreeNode.mk name files subs) = S.1 := rfl
  show (match findMostRecentTrack env (TreeNode.mk name files subs) with
    | some r =>
      fmrtSubs env tl
        (if jsGtOpt (getGpxFirstDate env r) acc.2
          then (some r, getGpxFirstDate env r) else acc)
    | none => fmrtSubs env tl acc) = fmrtSubs env tl (mergeState acc S)
  rw [hfind]
  rcases hS1 : S.1 with _ | r
  · show fmrtSubs env tl acc = fmrtSubs env tl (mergeState acc S)
    have hz : S.2 = some 0 := hv.2.2 hS1
    obtain ⟨⟨a, ha, ha0⟩, _, _⟩ := hacc
    have hm : mergeState acc S = acc := by
      unfold mergeState
      rw [hz, ha]
      have hc : jsGtOpt (some (0 : ℤ)) (some a) = false := by
        simp only [jsGtOpt, decide_eq_false_iff_not]
        omega
      rw [hc]
      simp
    rw [hm]
  · show fmrtSubs env tl
        (if jsGtOpt (getGpxFirstDate env r) acc.2
          then (some r, getGpxFirstDate env r) else acc) =
      fmrtSubs env tl (mergeState acc S)
    have hdate : S.2 = getGpxFirstDate env r := hv.2.1 r hS1
    have hm : (if jsGtOpt (getGpxFirstDate env r) acc.2
        then (some r, getGpxFirstDate env r) else acc) = mergeState acc S := by
      unfold mergeState
      rw [← hdate, ← hS1, Prod.mk.eta]
    rw [hm]

/-- Flattening: the node-level search state equals the file-comparison fold
over the depth-first file listing. -/
theorem fmrt_flatten (env : Str → Option Str) : ∀ t : TreeNode,
    fmrtSubs env t.subfolders (fmrtFold env t.files (none, some 0)) =
      fmrtFold env (dfsFiles t) (none, some 0) := by
  apply treeNode_strong_ind
  intro name files subs IH
  have inner : ∀ l : List (Str × TreeNode),
      (∀ k v, (k, v) ∈ l →
        fmrtSubs env v.subfolders (fmrtFold env v.files (none, some 0)) =
          fmrtFold env (dfsFiles v) (none, some 0)) →
      ∀ acc, StateInv env acc →
        fmrtSubs env l acc = fmrtFold env (dfsFilesSubs l) acc := by
    intro l
    induction l with
    | nil => intro _ acc _; rfl
    | cons hd tl ih2 =>
      obtain ⟨k, v⟩ := hd
      intro hmem acc hacc
      have hPv := hmem k v (List.mem_cons_self _ _)
      have hSv : StateInv env
          (fmrtSubs env v.subfolders (fmrtFold env v.files (none, some 0))) := by
        rw [hPv]
        exact StateInv_fold env _ _ (StateInv_init env)
      rw [fmrtSubs_cons_merge env k v tl acc hacc hSv, hPv,
        (fmrtFold_shift env (dfsFiles v) acc hacc).symm,
        ih2 (fun k2 v2 h2 => hmem k2 v2 (List.mem_cons_of_mem _ h2)) _
          (StateInv_fold env _ _ hacc)]
      show _ = fmrtFold env (dfsFiles v ++ dfsFilesSubs tl) acc
      rw [fmrtFold_append]
  show fmrtSubs env subs (fmrtFold env files (none, some 0)) = _
  rw [inner subs (fun k v h => IH k v h) _
    (StateInv_fold env files _ (StateInv_init env))]
  show fmrtFold env (dfsFilesSubs subs) (fmrtFold env files (none, some 0)) =
    fmrtFold env (files ++ dfsFilesSubs subs) (none, some 0)
  rw [fmrtFold_append]

theorem fmrtFold_stay_some (env : Str → Option Str) (l : List Str) :
    ∀ acc : Option Str × Option ℤ, ∀ x, acc.1 = some x →
      ∃ y, (fmrtFold env l acc).1 = some y := by
  induction l with
  | nil => intro acc x h; exact ⟨x, h⟩
  | cons f tl ih =>
    intro acc x h
    rw [fmrtFold_cons]
    cases hgt : jsGtOpt (getGpxFirstDate env f) acc.2 with
    | true => exact ih _ f (by simp [hgt])
    | false => exact ih _ x (by simp [hgt, h])

theorem fmrtFold_all_false (env : Str → Option Str) (l : List Str)
    (h : ∀ f ∈ l, jsGtOpt (getGpxFirstDate env f) (some 0) = false) :
    fmrtFold env l (none, some 0) = (none, some 0) := by
  induction l with
  | nil => rfl
  | cons f tl ih =>
    rw [fmrtFold_cons]
    have hf := h f (List.mem_cons_self f tl)
    show fmrtFold env tl
      (if jsGtOpt (getGpxFirstDate env f) (some 0)
        then (some f, getGpxFirstDate env f) else (none, some 0)) = _
    rw [hf]
    exact ih (fun g hg => h g (List.mem_cons_of_mem _ hg))

theorem fmrtFold_none_iff (env : Str → Option Str) (l : List Str) :
    (fmrtFold env l (none, some 0)).1 = none ↔
      ∀ f ∈ l, jsGtOpt (getGpxFirstDate env f) (some 0) = false := by
  constructor
  · induction l with
    | nil => intro _ f hf; exact absurd hf (List.not_mem_nil f)
    | cons g tl ih =>
      intro hres f hf
      cases hgt : jsGtOpt (getGpxFirstDate env g) (some 0) with
      | true =>
        exfalso
        rw [fmrtFold_cons] at hres
        have hstep : (if jsGtOpt (getGpxFirstDate env g)
              (((none, some 0) : Option Str × Option ℤ)).2
            then (some g, getGpxFirstDate env g) else (none, some 0)) =
            (some g, getGpxFirstDate env g) := by
          show (if jsGtOpt (getGpxFirstDate env g) (some 0)
            then (some g, getGpxFirstDate env g) else (none, some 0)) = _
          rw [hgt, if_pos rfl]
        rw [hstep] at hres
        obtain ⟨y, hy⟩ := fmrtFold_stay_some env tl
          (some g, getGpxFirstDate env g) g rfl
        rw [hres] at hy
        exact Option.noConfusion hy
      | false =>
        rcases List.mem_cons.mp hf with rfl | hftl
        · exact hgt
        · apply ih ?_ f hftl
          rw [fmrtFold_cons] at hres
          have hstep : (if jsGtOpt (getGpxFirstDate env g)
                (((none, some 0) : Option Str × Option ℤ)).2
              then (some g, getGpxFirstDate env g) else (none, some 0)) =
              ((none, some 0) : Option Str × Option ℤ) := by
            show (if jsGtOpt (getGpxFirstDate env g) (some 0)
              then (some g, getGpxFirstDate env g) else (none, some 0)) = _
            rw [hgt, if_neg Bool.false_ne_true]
          rwa [hstep] at hres
  · intro h
    rw [fmrtFold_all_false env l h]

theorem jsGtOpt_trans {x y z : Option ℤ} (h1 : jsGtOpt x y = true)
    (h2 : jsGtOpt y z = true) : jsGtOpt x z = true := by
  rcases x with _ | a <;> rcases y with _ | b <;> rcases z with _ | c <;>
    simp_all [jsGtOpt] <;> omega

theorem jsGtOpt_beq_false {x y : Option ℤ} (h : jsGtOpt x y = true) :
    (y == x) = false := by
  rcases x with _ | a <;> rcases y with _ | b <;> simp_all [jsGtOpt] <;> omega

/-- The strict-greater-than fold keeps the first file attaining the final
maximum: any run that ends holding `f` either never updated, or `f` is the
first listed file carrying its date. -/
theorem fmrtFold_first_max (env : Str → Option Str) (l : List Str) :
    ∀ acc : Option Str × Option ℤ, StateInv env acc → ∀ f,
      (fmrtFold env l acc).1 = some f →
      (fmrtFold env l acc = acc) ∨
        (jsGtOpt (getGpxFirstDate env f) acc.2 = true ∧
          l.find? (fun g => getGpxFirstDate env g == getGpxFirstDate env f) = some f) := by
  induction l with
  | nil => intro acc _ f _; exact Or.inl rfl
  | cons g tl ih =>
    intro acc hacc f hres
    rw [fmrtFold_cons] at hres ⊢
    cases hgt : jsGtOpt (getGpxFirstDate env g) acc.2 with
    | false =>
      rw [hgt, if_neg Bool.false_ne_true] at hres
      rw [if_neg Bool.false_ne_true]
      rcases ih acc hacc f hres with hl | ⟨hgtf, hfind⟩
      · exact Or.inl hl
      · refine Or.inr ⟨hgtf, ?_⟩
        have hne : (getGpxFirstDate env g == getGpxFirstDate env f) = false := by
          cases hb : (getGpxFirstDate env g == getGpxFirstDate env f) with
          | false => rfl
          | true =>
            have hbeq : getGpxFirstDate env g = getGpxFirstDate env f := eq_of_beq hb
            rw [hbeq, hgtf] at hgt
            exact Bool.noConfusion hgt
        rw [List.find?_cons_of_neg _ (by simp [hne])]
        exact hfind
    | true =>
      rw [hgt, if_pos rfl] at hres
      rw [if_pos rfl]
      have hinv2 : StateInv env (some g, getGpxFirstDate env g) := by
        have h2 := StateInv_upd env acc g hacc
        rwa [hgt, if_pos rfl] at h2
      rcases ih _ hinv2 f hres with hl | ⟨hgtf, hfind⟩
      · rw [hl] at hres
        have hfg : g = f := by simpa using hres
        subst hfg
        refine Or.inr ⟨hgt, ?_⟩
        rw [List.find?_cons_of_pos _ (by simp)]
      · have hgtf2 : jsGtOpt (getGpxFirstDate env f) (getGpxFirstDate env g) = true := hgtf
        refine Or.inr ⟨jsGtOpt_trans hgtf2 hgt, ?_⟩
        have hne := jsGtOpt_beq_false hgtf2
        rw [List.find?_cons_of_neg _ (by simp [hne])]
        exact hfind

/-- C6: `findMostRecentTrack` behaves as a depth-first traversal (files of a
node before its subfolders) folding a strict `>` comparison against a running
maximum started at the epoch: its result equals that flat fold; it returns
`none` exactly when no file's first date exceeds the epoch; and a returned
file is the first in traversal order among those carrying its (maximal)
date. -/
theorem c6_most_recent_track_dfs_strict_max (env : Str → Option Str) (t : TreeNode) :
    findMostRecentTrack env t = (fmrtFold env (dfsFiles t) (none, some 0)).1 ∧
    (findMostRecentTrack env t = none ↔
      ∀ f ∈ dfsFiles t, jsGtOpt (getGpxFirstDate env f) (some 0) = false) ∧
    (∀ f, findMostRecentTrack env t = some f →
      (dfsFiles t).find?
        (fun g => getGpxFirstDate env g == getGpxFirstDate env f) = some f) := by
  have heq : findMostRecentTrack env t = (fmrtFold env (dfsFiles t) (none, some 0)).1 := by
    rw [findMostRecentTrack_unfold, fmrt_flatten]
  refine ⟨heq, ?_, ?_⟩
  · rw [heq]
    exact fmrtFold_none_iff env (dfsFiles t)
  · intro f hf
    rw [heq] at hf
    rcases fmrtFold_first_max env (dfsFiles t) (none, some 0) (StateInv_init env) f hf
      with hl | ⟨_, hfind⟩
    · rw [hl] at hf
      exact Option.noConfusion hf
    · exact hfind

/-- C6 witness: in an environment where every file has the same valid date,
the first file in depth-first order wins, and the theorem's tie-breaking
conjunct confirms it is the first file carrying its date. -/
theorem c6_witness :
    (dfsFiles treeW).find?
      (fun g => getGpxFirstDate envDemo g ==
        getGpxFirstDate envDemo ("gpxFiles/a.gpx".toList)) =
      some ("gpxFiles/a.gpx".toList) :=
  (c6_most_recent_track_dfs_strict_max envDemo treeW).2.2
    ("gpxFiles/a.gpx".toList) (by decide)

/-! ### C4, C8 : the date sort -/

theorem validEnv_date_some {env : Str → Option Str} (hv : validEnv env) (p : Str) :
    ∃ a : ℤ, getGpxFirstDate env p = some a := by
  rcases h : getGpxFirstDate env p with _ | a
  · exact absurd h (hv p)
  · exact ⟨a, rfl⟩

theorem folderKey_some {env : Str → Option Str} (hv : validEnv env) (t : TreeNode) :
    ∃ a : ℤ, folderKey env t = some a := by
  unfold folderKey
  rcases findMostRecentTrack env t with _ | tr
  · exact ⟨0, rfl⟩
  · exact validEnv_date_some hv tr

theorem jsLeOpt_total_cases (x y : Option ℤ) : jsLeOpt x y = true ∨ jsLeOpt y x = true := by
  rcases x with _ | a <;> rcases y with _ | b <;> simp [jsLeOpt] <;> omega

theorem fileOrder_total (env : Str → Option Str) :
    ∀ f g : Str, fileOrder env f g ∨ fileOrder env g f := fun f g =>
  jsLeOpt_total_cases (getGpxFirstDate env f) (getGpxFirstDate env g)

theorem folderOrder_total (env : Str → Option Str) :
    ∀ a b : Str × TreeNode, folderOrder env a b ∨ folderOrder env b a := fun a b =>
  jsLeOpt_total_cases (folderKey env b.2) (folderKey env a.2)

theorem fileOrder_trans {env : Str → Option Str} (hv : validEnv env) :
    ∀ f g h : Str, fileOrder env f g → fileOrder env g h → fileOrder env f h := by
  intro f g h h1 h2
  obtain ⟨a, ha⟩ := validEnv_date_some hv f
  obtain ⟨b, hb⟩ := validEnv_date_some hv g
  obtain ⟨c, hc⟩ := validEnv_date_some hv h
  unfold fileOrder at *
  rw [ha, hb] at h1
  rw [hb, hc] at h2
  rw [ha, hc]
  simp only [jsLeOpt, decide_eq_true_eq] at *
  omega

theorem folderOrder_trans {env : Str → Option Str} (hv : validEnv env) :
    ∀ a b c : Str × TreeNode,
      folderOrder env a b → folderOrder env b c → folderOrder env a c := by
  intro x y z h1 h2
  obtain ⟨a, ha⟩ := folderKey_some hv x.2
  obtain ⟨b, hb⟩ := folderKey_some hv y.2
  obtain ⟨c, hc⟩ := folderKey_some hv z.2
  unfold folderOrder at *
  rw [hb, ha] at h1
  rw [hc, hb] at h2
  rw [hc, ha]
  simp only [jsLeOpt, decide_eq_true_eq] at *
  omega

theorem pairwise_orderedByB (le : α → α → Bool) (l : List α)
    (h : List.Pairwise (fun a b => le a b = true) l) : orderedByB le l = true := by
  induction l with
  | nil => rfl
  | cons a tl ih =>
    cases tl with
    | nil => rfl
    | cons b tl2 =>
      rw [List.pairwise_cons] at h
      show (le a b && orderedByB le (b :: tl2)) = true
      rw [h.1 b (List.mem_cons_self b tl2), ih h.2]
      rfl

theorem sortSubfolders_eq_map (env : Str → Option Str) (l : List (Str × TreeNode)) :
    sortSubfolders env l = l.map (fun kv => (kv.1, sortTreeByDate env kv.2)) := by
  induction l with
  | nil => rfl
  | cons hd tl ih =>
    obtain ⟨k, v⟩ := hd
    show (k, sortTreeByDate env v) :: sortSubfolders env tl = _
    rw [ih]
    rfl

theorem allSubsSortedB_iff (env : Str → Option Str) (l : List (Str × TreeNode)) :
    allSubsSortedB env l = true ↔ ∀ k v, (k, v) ∈ l → dateSortedB env v = true := by
  induction l with
  | nil =>
    constructor
    · intro _ k v hm
      exact absurd hm (List.not_mem_nil _)
    · intro _; rfl
  | cons hd tl ih =>
    obtain ⟨k0, v0⟩ := hd
    show (dateSortedB env v0 && allSubsSortedB env tl) = true ↔ _
    rw [Bool.and_eq_true, ih]
    constructor
    · intro ⟨h1, h2⟩ k v hm
      rcases List.mem_cons.mp hm with heq | hm2
      · obtain ⟨rfl, rfl⟩ := Prod.mk.injEq .. ▸ heq
        exact h1
      · exact h2 k v hm2
    · intro h
      exact ⟨h k0 v0 (List.mem_cons_self _ _),
        fun k v hm => h k v (List.mem_cons_of_mem _ hm)⟩

theorem sortTreeByDate_mk (env : Str → Option Str) (name : Str) (files : List Str)
    (subs : List (Str × TreeNode)) :
    sortTreeByDate env (TreeNode.mk name files subs) =
      TreeNode.mk name (List.insertionSort (fileOrder env) files)
        (List.insertionSort (folderOrder env) (sortSubfolders env subs)) := rfl

/-- After `sortTreeByDate`, every folder's files are ascending by first date
and its subfolder storage table is in descending most-recent-track date
order, recursively. -/
theorem sortTreeByDate_dateSorted (env : Str → Option Str) (t : TreeNode)
    (hv : validEnv env) : dateSortedB env (sortTreeByDate env t) = true := by
  induction t using treeNode_strong_ind with
  | h name files subs IH =>
  letI : IsTotal Str (fileOrder env) := ⟨fileOrder_total env⟩
  letI : IsTrans Str (fileOrder env) := ⟨fileOrder_trans hv⟩
  letI : IsTotal (Str × TreeNode) (folderOrder env) := ⟨folderOrder_total env⟩
  letI : IsTrans (Str × TreeNode) (folderOrder env) := ⟨folderOrder_trans hv⟩
  rw [sortTreeByDate_mk]
  show (orderedByB _ (List.insertionSort (fileOrder env) files) &&
    orderedByB _ (List.insertionSort (folderOrder env) (sortSubfolders env subs)) &&
    allSubsSortedB env (List.insertionSort (folderOrder env) (sortSubfolders env subs)))
      = true
  rw [Bool.and_eq_true, Bool.and_eq_true]
  refine ⟨⟨?_, ?_⟩, ?_⟩
  · exact pairwise_orderedByB _ _ (List.sorted_insertionSort (fileOrder env) files)
  · exact pairwise_orderedByB _ _
      (List.sorted_insertionSort (folderOrder env) (sortSubfolders env subs))
  · rw [allSubsSortedB_iff]
    intro k v hm
    have hm2 : (k, v) ∈ sortSubfolders env subs :=
      (List.perm_insertionSort (folderOrder env) (sortSubfolders env subs)).mem_iff.mp hm
    rw [sortSubfolders_eq_map] at hm2
    obtain ⟨⟨k0, v0⟩, hm0, heq⟩ := List.mem_map.mp hm2
    obtain ⟨rfl, rfl⟩ := Prod.mk.injEq .. ▸ heq
    exact IH k0 v0 hm0

theorem jsEntriesOrder_eq_self (l : List (Str × TreeNode))
    (h : ∀ kv ∈ l, isArrayIndexKey kv.1 = false) : jsEntriesOrder l = l := by
  unfold jsEntriesOrder
  have h1 : l.filter (fun kv => isArrayIndexKey kv.1) = [] := by
    rw [List.filter_eq_nil]
    intro kv hkv
    rw [h kv hkv]
    exact Bool.false_ne_true
  have h2 : l.filter (fun kv => !isArrayIndexKey kv.1) = l := by
    rw [List.filter_eq_self]
    intro kv hkv
    rw [h kv hkv]
    rfl
  rw [h1, h2]
  rfl

theorem subsNoIndexKeysB_spec (l : List (Str × TreeNode))
    (h : subsNoIndexKeysB l = true) :
    ∀ kv ∈ l, isArrayIndexKey kv.1 = false ∧ noIndexKeysB kv.2 = true := by
  induction l with
  | nil => intro kv hkv; exact absurd hkv (List.not_mem_nil kv)
  | cons hd tl ih =>
    obtain ⟨k, v⟩ := hd
    have h2 : (!isArrayIndexKey k && noIndexKeysB v && subsNoIndexKeysB tl) = true := h
    rw [Bool.and_eq_true, Bool.and_eq_true, Bool.not_eq_true'] at h2
    intro kv hkv
    rcases List.mem_cons.mp hkv with heq | hm
    · obtain ⟨rfl, rfl⟩ := Prod.mk.injEq .. ▸ heq
      exact ⟨h2.1.1, h2.1.2⟩
    · exact ih h2.2 kv hm

theorem allSubsIter_eq_allSubs (env : Str → Option Str) (l : List (Str × TreeNode))
    (h : ∀ kv ∈ l, iterSortedB env kv.2 = dateSortedB env kv.2) :
    allSubsIterSortedB env l = allSubsSortedB env l := by
  induction l with
  | nil => rfl
  | cons hd tl ih =>
    obtain ⟨k, v⟩ := hd
    show (iterSortedB env v && allSubsIterSortedB env tl) =
      (dateSortedB env v && allSubsSortedB env tl)
    rw [h (k, v) (List.mem_cons_self _ _),
      ih (fun kv hm => h kv (List.mem_cons_of_mem _ hm))]

/-- In the fragment with no array-index folder names, the iteration-order
sortedness check coincides with the storage-order one. -/
theorem iterSortedB_eq_dateSortedB (env : Str → Option Str) : ∀ t : TreeNode,
    noIndexKeysB t = true → iterSortedB env t = dateSortedB env t := by
  apply treeNode_strong_ind
  intro name files subs IH hn
  have hn2 : subsNoIndexKeysB subs = true := hn
  have hspec := subsNoIndexKeysB_spec subs hn2
  have hord : jsEntriesOrder subs = subs :=
    jsEntriesOrder_eq_self subs (fun kv hkv => (hspec kv hkv).1)
  show (orderedByB _ files && orderedByB _ (jsEntriesOrder subs) &&
      allSubsIterSortedB env subs) =
    (orderedByB _ files && orderedByB _ subs && allSubsSortedB env subs)
  rw [hord, allSubsIter_eq_allSubs env subs
    (fun kv hm => IH kv.1 kv.2 hm (hspec kv hm).2)]

/-- C4 (amended): after `sortTreeByDate` completes, within every folder the
files list is ascending by first-timestamp (the epoch for files with no time
tag or failed fetch, which sort first) and the `subfolders` object is rebuilt
by assigning entries in descending order of the first-timestamp of the most
recent track transitively contained in each subfolder — which is also the
order the object iterates whenever no folder name is an ECMAScript
array-index string.  (For array-index names such as years, ECMAScript
iterates ascending numerically regardless of assignment order, so the
descending-iteration reading fails; see the counterexample.  The `validEnv`
hypothesis — every first date parses — is the condition under which the JS
comparators are consistent and ECMAScript specifies the sort result at
all.) -/
theorem c4_sortTreeByDate_orders (env : Str → Option Str) (t : TreeNode)
    (hv : validEnv env) :
    dateSortedB env (sortTreeByDate env t) = true ∧
    (noIndexKeysB (sortTreeByDate env t) = true →
      iterSortedB env (sortTreeByDate env t) = true) := by
  refine ⟨sortTreeByDate_dateSorted env t hv, fun hn => ?_⟩
  rw [iterSortedB_eq_dateSortedB env _ hn]
  exact sortTreeByDate_dateSorted env t hv

/-- C4 counterexample: with two year-named subfolders (array-index strings)
whose newer track lives in the higher year, `sortTreeByDate` does rebuild the
object in descending date order (storage table `2024, 2023`), but
`Object.entries` iterates the array-index names ascending numerically
(`2023, 2024`), which is ascending — not descending — by most-recent-track
date; all dates involved are valid, so this is not the Invalid-Date corner. -/
theorem c4_counterexample :
    validEnv envYears ∧
    ((sortTreeByDate envYears treeYears).subfolders.map Prod.fst) =
      [("2024".toList), ("2023".toList)] ∧
    orderedByB (fun a b => jsLeOpt (folderKey envYears b.2) (folderKey envYears a.2))
      (jsEntriesOrder (sortTreeByDate envYears treeYears).subfolders) = false := by
  refine ⟨?_, by decide, by decide⟩
  intro p
  by_cases h1 : p = y23File
  · subst h1; decide
  · by_cases h2 : p = y24File
    · subst h2; decide
    · have he : envYears p = none := by simp [envYears, h1, h2]
      unfold getGpxFirstDate
      rw [he]
      simp

theorem sortSubfolders_fixed (env : Str → Option Str) (l : List (Str × TreeNode))
    (h : ∀ k w, (k, w) ∈ l → sortTreeByDate env w = w) :
    sortSubfolders env l = l := by
  induction l with
  | nil => rfl
  | cons hd tl ih =>
    obtain ⟨k, v⟩ := hd
    show (k, sortTreeByDate env v) :: sortSubfolders env tl = (k, v) :: tl
    rw [h k v (List.mem_cons_self _ _), ih (fun k w hm => h k w (List.mem_cons_of_mem _ hm))]

/-- C8: re-sorting an already date-sorted tree is the identity (stability of
the sorts plus unchanged per-file date data), under the same `validEnv`
consistency hypothesis as C4. -/
theorem c8_sortTreeByDate_idempotent (env : Str → Option Str) (t : TreeNode)
    (hv : validEnv env) :
    sortTreeByDate env (sortTreeByDate env t) = sortTreeByDate env t := by
  induction t using treeNode_strong_ind with
  | h name files subs IH =>
  letI : IsTotal Str (fileOrder env) := ⟨fileOrder_total env⟩
  letI : IsTrans Str (fileOrder env) := ⟨fileOrder_trans hv⟩
  letI : IsTotal (Str × TreeNode) (folderOrder env) := ⟨folderOrder_total env⟩
  letI : IsTrans (Str × TreeNode) (folderOrder env) := ⟨folderOrder_trans hv⟩
  rw [sortTreeByDate_mk, sortTreeByDate_mk]
  have hfiles : List.insertionSort (fileOrder env) (List.insertionSort (fileOrder env) files)
      = List.insertionSort (fileOrder env) files :=
    List.Sorted.insertionSort_eq (List.sorted_insertionSort (fileOrder env) files)
  have hfix : sortSubfolders env
      (List.insertionSort (folderOrder env) (sortSubfolders env subs)) =
      List.insertionSort (folderOrder env) (sortSubfolders env subs) := by
    apply sortSubfolders_fixed
    intro k w hm
    have hm2 : (k, w) ∈ sortSubfolders env subs :=
      (List.perm_insertionSort (folderOrder env) (sortSubfolders env subs)).mem_iff.mp hm
    rw [sortSubfolders_eq_map] at hm2
    obtain ⟨⟨k0, v0⟩, hm0, heq⟩ := List.mem_map.mp hm2
    obtain ⟨rfl, rfl⟩ := Prod.mk.injEq .. ▸ heq
    exact IH k0 v0 hm0
  rw [hfiles, hfix,
    List.Sorted.insertionSort_eq
      (List.sorted_insertionSort (folderOrder env) (sortSubfolders env subs))]

/-- C4 witness: in the all-fetches-fail environment every date is the epoch
(valid), the sorted small tree (whose folder name `sub` is not an array
index) passes the storage-order check, and — its names being non-index — the
iteration-order check as well. -/
theorem c4_witness :
    validEnv envEpoch ∧
    dateSortedB envEpoch (sortTreeByDate envEpoch treeW) = true ∧
    iterSortedB envEpoch (sortTreeByDate envEpoch treeW) = true :=
  have hv : validEnv envEpoch := fun _ h => Option.noConfusion h
  ⟨hv, (c4_sortTreeByDate_orders envEpoch treeW hv).1,
    (c4_sortTreeByDate_orders envEpoch treeW hv).2 (by decide)⟩

/-- C8 witness: idempotence of the sort instantiated on the small tree in the
all-fetches-fail environment. -/
theorem c8_witness :
    sortTreeByDate envEpoch (sortTreeByDate envEpoch treeW) = sortTreeByDate envEpoch treeW :=
  c8_sortTreeByDate_idempotent envEpoch treeW (fun _ h => Option.noConfusion h)
